import Mathlib

/-!
Verification of the TradeLens coordinated multi-view visualization core.

This file gives a shallow embedding, in Lean, of the parts of the
TradeLens frontend that the specification describes: the percentile
based cluster assignment used by the scatter and PCP renderers, the
data loading and fallback pipeline of the DataService singleton, the
map color scale, the least squares regression and Pearson correlation
of the scatter renderer, the zustand view state store with its setters
and the map click toggle, the bar chart click handler, and the numeric
string normalization helper.  JavaScript numbers are modelled as exact
rationals (reals where a square root is required); JavaScript nullish
and NaN behaviour is modelled explicitly where the code depends on it.

The file is organized as definitions first, then the theorems.
-/

namespace TradeLens

/-! ## Shared helpers: JavaScript array sort and indexOf -/

/-- Ascending numeric sort, the effect of the JavaScript
`values.sort((a, b) => a - b)` idiom used by both cluster assigners. -/
def sortAsc (l : List ℚ) : List ℚ :=
  List.insertionSort (· ≤ ·) l

/-- JavaScript `Array.prototype.indexOf`: the index of the first
occurrence of `v`, and `-1` when `v` is absent. -/
def jsIndexOf (l : List ℚ) (v : ℚ) : ℤ :=
  if v ∈ l then (List.indexOf v l : ℤ) else -1

/-- The rank percentile used by both `assignCluster` functions:
index of the value in the ascending-sorted list, divided by the list
length.  (The source computes `values.indexOf(x) / values.length`.) -/
def rankPercentile (values : List ℚ) (v : ℚ) : ℚ :=
  (jsIndexOf values v : ℚ) / (values.length : ℚ)

/-! ## ClusterAssigner: scatter renderer version

Embedding of `assignCluster` from `ScatterPlot.tsx`: the filtered
dataset is a list of (x, y) points; percentiles are taken on the
sorted x values and sorted y values; the cluster index is
`Math.floor((xPercentile + yPercentile) * k / 2)` capped by
`Math.min(clusterIndex, k - 1)`. -/

/-- A scatter data point after filtering (country label plus the two
numeric axis values). -/
structure ScatterPoint where
  country : String
  x : ℚ
  y : ℚ
deriving DecidableEq, Repr

/-- `assignCluster` from `ScatterPlot.tsx` (lines 190-199). -/
def assignCluster (data : List ScatterPoint) (k : ℤ) (point : ScatterPoint) : ℤ :=
  let xValues := sortAsc (data.map ScatterPoint.x)
  let yValues := sortAsc (data.map ScatterPoint.y)
  let xPercentile := rankPercentile xValues point.x
  let yPercentile := rankPercentile yValues point.y
  let clusterIndex : ℤ := ⌊(xPercentile + yPercentile) * (k : ℚ) / 2⌋
  min clusterIndex (k - 1)

/-! ## ClusterAssigner: PCP renderer version

Embedding of `assignCluster` from `PCP.tsx`: identical computation,
with the first two PCP columns (`Co2-Emissions`, `GDP`) as the field
pair. -/

/-- A PCP record after filtering: the four numeric columns. -/
structure PCPPoint where
  country : String
  co2Emissions : ℚ
  gdp : ℚ
  population : ℚ
  lifeExpectancy : ℚ
deriving DecidableEq, Repr

/-- `assignCluster` from `PCP.tsx` (lines 143-154): percentiles over
the first two columns of the filtered data. -/
def pcpAssignCluster (data : List PCPPoint) (k : ℤ) (point : PCPPoint) : ℤ :=
  let col1Values := sortAsc (data.map PCPPoint.co2Emissions)
  let col2Values := sortAsc (data.map PCPPoint.gdp)
  let col1Percentile := rankPercentile col1Values point.co2Emissions
  let col2Percentile := rankPercentile col2Values point.gdp
  let clusterIndex : ℤ := ⌊(col1Percentile + col2Percentile) * (k : ℚ) / 2⌋
  min clusterIndex (k - 1)

/-- The cluster id computed by the literal reading of the spec
sentence: average the two rank percentiles, multiply by k / 2, floor,
and clamp to [0, k-1]. -/
def specClusterLiteral (data : List ScatterPoint) (k : ℤ) (point : ScatterPoint) : ℤ :=
  let xValues := sortAsc (data.map ScatterPoint.x)
  let yValues := sortAsc (data.map ScatterPoint.y)
  let avg := (rankPercentile xValues point.x + rankPercentile yValues point.y) / 2
  max 0 (min ⌊avg * ((k : ℚ) / 2)⌋ (k - 1))

/-- The amended description of the algorithm: average the two rank
percentiles, multiply by k (equivalently, multiply the sum of the two
percentiles by k / 2), floor, and clamp to [0, k-1]. -/
def specClusterAveraged (data : List ScatterPoint) (k : ℤ) (point : ScatterPoint) : ℤ :=
  let xValues := sortAsc (data.map ScatterPoint.x)
  let yValues := sortAsc (data.map ScatterPoint.y)
  let avg := (rankPercentile xValues point.x + rankPercentile yValues point.y) / 2
  max 0 (min ⌊avg * (k : ℚ)⌋ (k - 1))

/-- PCP version of the amended description. -/
def specPcpClusterAveraged (data : List PCPPoint) (k : ℤ) (point : PCPPoint) : ℤ :=
  let col1Values := sortAsc (data.map PCPPoint.co2Emissions)
  let col2Values := sortAsc (data.map PCPPoint.gdp)
  let avg := (rankPercentile col1Values point.co2Emissions +
      rankPercentile col2Values point.gdp) / 2
  max 0 (min ⌊avg * (k : ℚ)⌋ (k - 1))

/-- Concrete four-point dataset used to separate the code from the
literal reading of the spec sentence. -/
def clusterCexData : List ScatterPoint :=
  [⟨"a", 1, 1⟩, ⟨"b", 2, 2⟩, ⟨"c", 3, 3⟩, ⟨"d", 4, 4⟩]

/-- Concrete four-record PCP dataset for the witnesses. -/
def pcpWitnessData : List PCPPoint :=
  [⟨"a", 1, 1, 10, 70⟩, ⟨"b", 2, 2, 20, 71⟩, ⟨"c", 3, 3, 30, 72⟩,
    ⟨"d", 4, 4, 40, 73⟩]

/-! ## DataRepository: load pipeline (`dataService.ts`)

`_loadData` tries the primary API source; on any failure it returns
`_loadFallbackData()`.  `_loadFallbackData` tries the static files; on
failure its catch block rethrows the error it caught.  The outcome of
one attempt is modelled as an `Except`: the value carried by
`Except.error` is the error object the corresponding fetch rejected
with. -/

/-- `_loadFallbackData` (lines 99-126): succeeds with the fallback
payload, or rethrows the fallback failure. -/
def loadFallbackData {ε α : Type} (fallbackResult : Except ε α) : Except ε α :=
  match fallbackResult with
  | .ok d => .ok d
  | .error e => .error e

/-- `_loadData` (lines 48-97): on primary success, the primary
payload; on primary failure the result of `_loadFallbackData`. -/
def loadData {ε α : Type} (primaryResult fallbackResult : Except ε α) :
    Except ε α :=
  match primaryResult with
  | .ok d => .ok d
  | .error _ => loadFallbackData fallbackResult

/-! ## DataRepository: `loadAllData` memoization (lines 31-46)

State machine for the singleton: `loaded` models `isLoaded()`,
`loading` and `loadPromiseId` model the `loading` flag and the
memoized promise, `fetchPairs` counts how many times `_loadData` was
started (each start issues exactly one concurrent pair of network
fetches).  A call happens synchronously up to the first await, so the
synchronous prefix of `loadAllData` is a function on this state that
also returns the promise handed back to the caller. -/

structure DataServiceState where
  loaded : Bool
  loading : Bool
  loadPromiseId : Option ℕ
  nextPromiseId : ℕ
  fetchPairs : ℕ
deriving DecidableEq, Repr

/-- The synchronous prefix of `loadAllData`: return immediately when
loaded; return the memoized promise when a load is in flight;
otherwise set the flag, start `_loadData` (one new fetch pair) and
memoize the fresh promise. -/
def loadAllData (s : DataServiceState) : DataServiceState × Option ℕ :=
  if s.loaded then (s, none)
  else if s.loading && s.loadPromiseId.isSome then (s, s.loadPromiseId)
  else
    (⟨s.loaded, true, some s.nextPromiseId, s.nextPromiseId + 1,
      s.fetchPairs + 1⟩, some s.nextPromiseId)

/-- The state after one `loadAllData` call. -/
def loadAllDataState (s : DataServiceState) : DataServiceState :=
  (loadAllData s).1

/-! ## Map renderer: color scale (`Map.tsx`, lines 449-474)

`values` is `dataService.getNumericValues(feature)` (already positive
and non-NaN).  For `Life expectancy` the sequential scale domain is
`d3.extent(values)`; for any other feature it is the 5th and 95th
d3 quantile of the sorted values, with `.clamp(true)`.  A d3
sequential scale feeds the interpolator with
`t = (v - d0) / (d1 - d0)` (constant 1/2 when the domain is
degenerate), clamped to [0, 1] when clamping is on; two inputs with
the same `t` render the same color. -/

/-- The four selectable features (`ChartFeature` in `types/index.ts`). -/
inductive ChartFeature where
  | co2Emissions
  | gdp
  | population
  | lifeExpectancy
deriving DecidableEq, Repr

instance : Std.Antisymm (fun x1 x2 : ℚ => x1 ≤ x2) where
  antisymm h1 h2 := le_antisymm h1 h2

/-- `d3.extent` on a list of plain numbers: the (min, max) pair. -/
def d3Extent (l : List ℚ) : ℚ × ℚ :=
  (l.min?.getD 0, l.max?.getD 0)

/-- The R-7 interpolation step of `d3.quantile` on an already sorted
array, at fractional rank `h`:
`value0 + (value1 - value0) * (h - floor h)` with
`value0 = sorted[floor h]` and `value1 = sorted[floor h + 1]`. -/
def quantileInterp (s : List ℚ) (h : ℚ) : ℚ :=
  let i0 : ℕ := ⌊h⌋.toNat
  s.getD i0 0 + (s.getD (i0 + 1) 0 - s.getD i0 0) * (h - (i0 : ℚ))

/-- `d3.quantile(values, p)` specialized to the sorted array the Map
component passes: `undefined` on an empty array, the minimum when
`p <= 0` or fewer than two values, the maximum when `p >= 1`, and the
R-7 interpolation at rank `(n - 1) * p` otherwise. -/
def d3Quantile (values : List ℚ) (p : ℚ) : Option ℚ :=
  if values.length = 0 then none
  else if p ≤ 0 ∨ values.length < 2 then values.min?
  else if 1 ≤ p then values.max?
  else some (quantileInterp values (((values.length : ℚ) - 1) * p))

/-- The JavaScript `quantileResult || fallbackValue` guard around both
quantile calls: it replaces `undefined`, NaN and 0 by the fallback. -/
def jsOrQ (q : Option ℚ) (dflt : ℚ) : ℚ :=
  match q with
  | none => dflt
  | some v => if v = 0 then dflt else v

/-- A d3 sequential scale as configured by the Map component: a two
point domain and the clamp flag. -/
structure SeqScale where
  d0 : ℚ
  d1 : ℚ
  clamped : Bool
deriving DecidableEq, Repr

/-- The `colorScale` construction (lines 462-474). -/
def mapColorScale (feature : ChartFeature) (values : List ℚ) : SeqScale :=
  if feature = ChartFeature.lifeExpectancy then
    { d0 := (d3Extent values).1, d1 := (d3Extent values).2, clamped := false }
  else
    let sortedValues := sortAsc values
    let minVal := jsOrQ (d3Quantile sortedValues (1 / 20))
      (sortedValues.getD 0 0)
    let maxVal := jsOrQ (d3Quantile sortedValues (19 / 20))
      (sortedValues.getD (sortedValues.length - 1) 0)
    { d0 := minVal, d1 := maxVal, clamped := true }

/-- The interpolator input `t` a d3 sequential scale computes for an
input value: `(v - d0) / (d1 - d0)` (the constant 1/2 when the domain
is degenerate), clamped to [0, 1] when clamping is enabled.  Equal `t`
means equal rendered color. -/
def scaleT (s : SeqScale) (v : ℚ) : ℚ :=
  let t := if s.d1 - s.d0 = 0 then 1 / 2 else (v - s.d0) / (s.d1 - s.d0)
  if s.clamped then max 0 (min 1 t) else t

/-! ## Scatter renderer: regression and correlation
(`ScatterPlot.tsx`, lines 249-292)

The loops run for `i < min(xs.length, ys.length)`, which is the list
of `zip` pairs; the means are over the full series.  The square root
forces the real numbers here. -/

/-- `d3.mean(series) || 0`: the arithmetic mean, with the JavaScript
or-guard turning the undefined mean of an empty series into 0. -/
noncomputable def jsMean (l : List ℝ) : ℝ :=
  if l.length = 0 then 0 else l.sum / (l.length : ℝ)

/-- `leastSquares` (lines 249-266): returns (slope, intercept); the
slope is 0 when the x denominator is 0. -/
noncomputable def leastSquares (xs ys : List ℝ) : ℝ × ℝ :=
  let xMean := jsMean xs
  let yMean := jsMean ys
  let num := ((xs.zip ys).map (fun p => (p.1 - xMean) * (p.2 - yMean))).sum
  let den := ((xs.zip ys).map (fun p => (p.1 - xMean) * (p.1 - xMean))).sum
  let slope := if den = 0 then 0 else num / den
  (slope, yMean - slope * xMean)

/-- `calculateCorrelation` (lines 268-287): Pearson numerator over the
square root of the product of the two sums of squares, with the
degenerate guard returning 0. -/
noncomputable def calculateCorrelation (xs ys : List ℝ) : ℝ :=
  let xMean := jsMean xs
  let yMean := jsMean ys
  let num := ((xs.zip ys).map (fun p => (p.1 - xMean) * (p.2 - yMean))).sum
  let xDen := ((xs.zip ys).map (fun p => (p.1 - xMean) * (p.1 - xMean))).sum
  let yDen := ((xs.zip ys).map (fun p => (p.2 - yMean) * (p.2 - yMean))).sum
  let den := Real.sqrt (xDen * yDen)
  if den = 0 then 0 else num / den

/-- The covariance in the sense of the spec sentence, over the plotted
pairs: mean of the products of deviations. -/
noncomputable def specCovariance (xs ys : List ℝ) : ℝ :=
  ((xs.zip ys).map (fun p => (p.1 - jsMean xs) * (p.2 - jsMean ys))).sum /
    ((xs.zip ys).length : ℝ)

/-- The (population) variance of a series, in the sense of the spec
sentence. -/
noncomputable def specVariance (l : List ℝ) : ℝ :=
  (l.map (fun x => (x - jsMean l) * (x - jsMean l))).sum / (l.length : ℝ)

/-- The Pearson correlation coefficient in its textbook form:
covariance over the product of the standard deviations. -/
noncomputable def specPearson (xs ys : List ℝ) : ℝ :=
  specCovariance xs ys /
    (Real.sqrt (specVariance xs) * Real.sqrt (specVariance ys))

/-! ## ViewState store (`appStore.ts`) and map selection toggle

The zustand store holds the shared view state; every setter replaces
one field wholesale.  The Map click handler resolves a country name
from the geo feature property bag through the alias chain
`NAME || Country || name` (JavaScript truthiness: missing and empty
strings are falsy) and, when truthy, toggles the name in the current
selection. -/

/-- The `currentAxis` values. -/
inductive Axis where
  | X
  | Y
deriving DecidableEq, Repr

/-- The fields of the zustand `AppStore` state. -/
structure StoreState where
  isLoading : Bool
  error : Option String
  selectedCountries : List String
  mapFeature : ChartFeature
  xVar : ChartFeature
  yVar : ChartFeature
  k : ℤ
  currentAxis : Axis
deriving DecidableEq, Repr

/-- The initial store state (`appStore.ts`, lines 45-70): note the
hardcoded seven-country default selection. -/
def initialStoreState : StoreState where
  isLoading := false
  error := none
  selectedCountries := ["United States", "China", "India", "Germany",
    "Japan", "United Kingdom", "France"]
  mapFeature := ChartFeature.population
  xVar := ChartFeature.co2Emissions
  yVar := ChartFeature.population
  k := 4
  currentAxis := Axis.X

/-- The property bag of a geo feature: the three country-name aliases
`NAME`, `Country`, `name` (each possibly missing). -/
structure GeoProps where
  upperName : Option String
  countryAlias : Option String
  lowerName : Option String
deriving DecidableEq, Repr

/-- JavaScript truthiness of a possibly missing string: `undefined`
and the empty string are falsy. -/
def truthyStr : Option String → Bool
  | some s => !(s == "")
  | none => false

/-- `getCountryName` from the Map component:
`d.properties?.NAME || d.properties?.Country || d.properties?.name`. -/
def getCountryName (p : GeoProps) : Option String :=
  if truthyStr p.upperName then p.upperName
  else if truthyStr p.countryAlias then p.countryAlias
  else p.lowerName

/-- The selection toggle inside `mouseClick` (`Map.tsx`,
lines 510-521): remove every occurrence when present, append at the
end when absent. -/
def toggleCountry (countries : List String) (countryName : String) :
    List String :=
  if countryName ∈ countries then
    countries.filter (fun c => c ≠ countryName)
  else countries ++ [countryName]

/-- The full `mouseClick` update: toggle only when the resolved name
is truthy. -/
def mapClickUpdate (countries : List String) (p : GeoProps) : List String :=
  match getCountryName p with
  | some n => if n = "" then countries else toggleCountry countries n
  | none => countries

/-- The store mutations: one event per setter, plus `clearData` and a
map click (which calls `setSelectedCountries` with the toggled list). -/
inductive StoreEvent where
  | setSelectedCountries (countries : List String)
  | setMapFeature (feature : ChartFeature)
  | setXVar (v : ChartFeature)
  | setYVar (v : ChartFeature)
  | setK (k : ℤ)
  | setCurrentAxis (a : Axis)
  | setIsLoading (b : Bool)
  | setError (e : Option String)
  | clearData
  | mapClick (p : GeoProps)
deriving DecidableEq, Repr

/-- One store mutation (each setter replaces its field; `clearData`
resets the documented fields and leaves `isLoading` untouched). -/
def stepStore (s : StoreState) : StoreEvent → StoreState
  | .setSelectedCountries l => { s with selectedCountries := l }
  | .setMapFeature f => { s with mapFeature := f }
  | .setXVar v => { s with xVar := v }
  | .setYVar v => { s with yVar := v }
  | .setK k => { s with k := k }
  | .setCurrentAxis a => { s with currentAxis := a }
  | .setIsLoading b => { s with isLoading := b }
  | .setError e => { s with error := e }
  | .clearData =>
      { s with
        selectedCountries := []
        mapFeature := ChartFeature.co2Emissions
        xVar := ChartFeature.co2Emissions
        yVar := ChartFeature.population
        k := 4
        currentAxis := Axis.X
        error := none }
  | .mapClick p =>
      { s with selectedCountries := mapClickUpdate s.selectedCountries p }

/-- The store state after a sequence of mutations from the initial
state. -/
def runStore (events : List StoreEvent) : StoreState :=
  events.foldl stepStore initialStoreState

/-! ## Bar chart click handler (`BarChart.tsx`, lines 229-232)

Clicking a bar looks up the clicked datum with
`validMseData.indexOf(d)` and calls `setK(indexOf + 1)`. -/

/-- The k value the click handler passes to `setK` when the bar at
0-based index `i` is clicked: the index of the first occurrence of
the bar value, plus one. -/
def barClickNewK (validMseData : List ℚ) (i : ℕ) : ℤ :=
  jsIndexOf validMseData (validMseData.getD i 0) + 1

/-! ## `parseNumericValue` (`dataService.ts`, lines 241-251)

The input is `string | number | null | undefined`.  A JavaScript
number is modelled as NaN, one of the two infinities, or a rational.
The string branch strips every comma and the first dollar and percent
signs, runs `parseFloat`, and applies `|| 0` (which replaces NaN and 0
by 0). -/

/-- A JavaScript number. -/
inductive JSNum where
  | nan
  | posInf
  | negInf
  | fin (q : ℚ)
deriving DecidableEq, Repr

/-- JavaScript truthiness of a number: NaN, 0 and -0 are falsy. -/
def JSNum.truthy : JSNum → Bool
  | .nan => false
  | .posInf => true
  | .negInf => true
  | .fin q => decide (q ≠ 0)

/-- The `a || b` operator on a number-valued left operand. -/
def jsOrNum (a b : JSNum) : JSNum :=
  if a.truthy then a else b

/-- The `string | number | null | undefined` argument type of
`parseNumericValue`. -/
inductive JSValue where
  | null
  | undef
  | num (n : JSNum)
  | str (s : String)
deriving DecidableEq, Repr

/-- `.replace(/,/g, "")`: remove every occurrence of a character. -/
def removeAll (s : String) (c : Char) : String :=
  ⟨s.data.filter (fun ch => ch ≠ c)⟩

/-- Recursion for `removeFirst`. -/
def removeFirstAux : List Char → Char → List Char
  | [], _ => []
  | ch :: rest, c => if ch = c then rest else ch :: removeFirstAux rest c

/-- `.replace("$", "")` and `.replace("%", "")`: a plain-string
pattern replaces only the first occurrence. -/
def removeFirst (s : String) (c : Char) : String :=
  ⟨removeFirstAux s.data c⟩

/-- The cleaning chain applied to the stringified input. -/
def cleanNumericString (s : String) : String :=
  removeFirst (removeFirst (removeAll s ',') '$') '%'

/-- A decimal digit, for the `parseFloat` grammar. -/
def isDecDigit (c : Char) : Bool :=
  decide ('0' ≤ c) && decide (c ≤ '9')

/-- Consume a maximal digit prefix: accumulated value, number of
digits read, and the rest of the input. -/
def parseDigitsAux : List Char → ℕ → ℕ → ℕ × ℕ × List Char
  | [], acc, cnt => (acc, cnt, [])
  | c :: rest, acc, cnt =>
    if isDecDigit c then
      parseDigitsAux rest (acc * 10 + (c.toNat - '0'.toNat)) (cnt + 1)
    else (acc, cnt, c :: rest)

/-- The optional exponent part of the `parseFloat` grammar; an
exponent marker without digits is ignored (exponent 0). -/
def parseExponent (l : List Char) : ℤ :=
  match l with
  | c :: rest =>
    if c = 'e' || c = 'E' then
      match rest with
      | '-' :: rest2 =>
        match parseDigitsAux rest2 0 0 with
        | (ev, ecnt, _) => if ecnt = 0 then 0 else -(ev : ℤ)
      | '+' :: rest2 =>
        match parseDigitsAux rest2 0 0 with
        | (ev, ecnt, _) => if ecnt = 0 then 0 else (ev : ℤ)
      | _ =>
        match parseDigitsAux rest 0 0 with
        | (ev, ecnt, _) => if ecnt = 0 then 0 else (ev : ℤ)
    else 0
  | [] => 0

/-- `parseFloat`: skip leading whitespace, read an optional sign,
then either an Infinity literal or a decimal significand (integer
and/or fraction digits) with an optional exponent; NaN when no digit
can be read. -/
def jsParseFloat (s : String) : JSNum :=
  let l0 := s.data.dropWhile Char.isWhitespace
  let sign : ℚ := match l0 with
    | '-' :: _ => -1
    | _ => 1
  let l1 : List Char := match l0 with
    | '-' :: rest => rest
    | '+' :: rest => rest
    | _ => l0
  if l1.take 8 = "Infinity".data then
    (if sign = 1 then JSNum.posInf else JSNum.negInf)
  else
    match parseDigitsAux l1 0 0 with
    | (ip, icnt, r1) =>
      match (match r1 with
        | '.' :: rest => parseDigitsAux rest 0 0
        | _ => ((0 : ℕ), (0 : ℕ), r1)) with
      | (fp, fcnt, r2) =>
        if icnt = 0 && fcnt = 0 then JSNum.nan
        else
          JSNum.fin (sign * ((ip : ℚ) + (fp : ℚ) / ((10 : ℚ) ^ fcnt)) *
            (10 : ℚ) ^ (parseExponent r2))

/-- `parseNumericValue` (lines 241-251). -/
def parseNumericValue : JSValue → JSNum
  | .null => .fin 0
  | .undef => .fin 0
  | .num n => n
  | .str s => jsOrNum (jsParseFloat (cleanNumericString s)) (.fin 0)

end TradeLens

namespace TradeLens

/-! ## Theorems -/

theorem mem_sortAsc {l : List ℚ} {v : ℚ} : v ∈ sortAsc l ↔ v ∈ l :=
  (List.perm_insertionSort _ l).mem_iff

theorem length_sortAsc (l : List ℚ) : (sortAsc l).length = l.length :=
  (List.perm_insertionSort _ l).length_eq

theorem jsIndexOf_nonneg_of_mem {l : List ℚ} {v : ℚ} (h : v ∈ l) :
    0 ≤ jsIndexOf l v := by
  simp only [jsIndexOf, if_pos h]
  exact Int.ofNat_nonneg _

theorem jsIndexOf_lt_length_of_mem {l : List ℚ} {v : ℚ} (h : v ∈ l) :
    jsIndexOf l v < (l.length : ℤ) := by
  simp only [jsIndexOf, if_pos h]
  exact_mod_cast List.indexOf_lt_length.mpr h

theorem rankPercentile_nonneg {values : List ℚ} {v : ℚ} (h : v ∈ values) :
    0 ≤ rankPercentile values v := by
  have hlen : (0 : ℚ) < (values.length : ℚ) := by
    have := List.length_pos.mpr (List.ne_nil_of_mem h)
    exact_mod_cast this
  have hidx : (0 : ℚ) ≤ (jsIndexOf values v : ℚ) := by
    exact_mod_cast jsIndexOf_nonneg_of_mem h
  exact div_nonneg hidx (le_of_lt hlen)

theorem rankPercentile_lt_one {values : List ℚ} {v : ℚ} (h : v ∈ values) :
    rankPercentile values v < 1 := by
  have hlen : (0 : ℚ) < (values.length : ℚ) := by
    have := List.length_pos.mpr (List.ne_nil_of_mem h)
    exact_mod_cast this
  have hidx : (jsIndexOf values v : ℚ) < (values.length : ℚ) := by
    exact_mod_cast jsIndexOf_lt_length_of_mem h
  exact (div_lt_one hlen).mpr hidx

theorem clusterIndex_lower_bound (px py : ℚ) (k : ℤ)
    (hpx : 0 ≤ px) (hpy : 0 ≤ py) (hk : 1 ≤ k) :
    0 ≤ min ⌊(px + py) * (k : ℚ) / 2⌋ (k - 1) := by
  have hkq : (0 : ℚ) ≤ (k : ℚ) := by exact_mod_cast le_trans zero_le_one hk
  have h0 : 0 ≤ ⌊(px + py) * (k : ℚ) / 2⌋ :=
    Int.floor_nonneg.mpr (by positivity)
  exact le_min h0 (by omega)

theorem floorMin_eq_averaged (px py : ℚ) (k : ℤ)
    (hpx : 0 ≤ px) (hpy : 0 ≤ py) (hk : 1 ≤ k) :
    min ⌊(px + py) * (k : ℚ) / 2⌋ (k - 1) =
      max 0 (min ⌊(px + py) / 2 * (k : ℚ)⌋ (k - 1)) := by
  have harg : (px + py) * (k : ℚ) / 2 = (px + py) / 2 * (k : ℚ) := by ring
  rw [harg]
  exact (max_eq_right (by
    have := clusterIndex_lower_bound px py k hpx hpy hk
    rwa [harg] at this)).symm

/-- C1 counterexample: in the four-point dataset `clusterCexData` with
k = 4, the record (3, 3) has rank percentile 1/2 on each field; the
code computes floor((1/2 + 1/2) * 4 / 2) = 2 while the literal spec
algorithm (average the percentiles, multiply by k / 2, floor, clamp)
computes floor(((1/2 + 1/2) / 2) * (4 / 2)) = 1. -/
theorem assignCluster_ne_specLiteral_cex :
    assignCluster clusterCexData 4 ⟨"c", 3, 3⟩ = 2 ∧
      specClusterLiteral clusterCexData 4 ⟨"c", 3, 3⟩ = 1 ∧
      assignCluster clusterCexData 4 ⟨"c", 3, 3⟩ ≠
        specClusterLiteral clusterCexData 4 ⟨"c", 3, 3⟩ := by
  refine ⟨?_, ?_, ?_⟩ <;>
    norm_num [assignCluster, specClusterLiteral, clusterCexData, sortAsc,
      List.insertionSort, List.orderedInsert, rankPercentile, jsIndexOf,
      List.indexOf, List.findIdx, List.findIdx.go, beq_iff_eq, cond_eq_if]

/-- C1 (amended): for every filtered dataset, every record in it and
every k at least 1, both cluster assigners compute: average the two
rank percentiles, multiply by k (equivalently multiply the sum of the
two percentiles by k / 2), floor, and clamp to [0, k-1]; the lower
clamp is vacuous because the value is already nonnegative. -/
theorem assignCluster_eq_specAveraged :
    (∀ (data : List ScatterPoint) (k : ℤ) (point : ScatterPoint),
      point ∈ data → 1 ≤ k →
        assignCluster data k point = specClusterAveraged data k point) ∧
    (∀ (data : List PCPPoint) (k : ℤ) (point : PCPPoint),
      point ∈ data → 1 ≤ k →
        pcpAssignCluster data k point = specPcpClusterAveraged data k point) := by
  constructor
  · intro data k point hmem hk
    have hx : point.x ∈ sortAsc (data.map ScatterPoint.x) :=
      mem_sortAsc.mpr (List.mem_map_of_mem _ hmem)
    have hy : point.y ∈ sortAsc (data.map ScatterPoint.y) :=
      mem_sortAsc.mpr (List.mem_map_of_mem _ hmem)
    simpa only [assignCluster, specClusterAveraged] using
      floorMin_eq_averaged _ _ k (rankPercentile_nonneg hx)
        (rankPercentile_nonneg hy) hk
  · intro data k point hmem hk
    have hx : point.co2Emissions ∈ sortAsc (data.map PCPPoint.co2Emissions) :=
      mem_sortAsc.mpr (List.mem_map_of_mem _ hmem)
    have hy : point.gdp ∈ sortAsc (data.map PCPPoint.gdp) :=
      mem_sortAsc.mpr (List.mem_map_of_mem _ hmem)
    simpa only [pcpAssignCluster, specPcpClusterAveraged] using
      floorMin_eq_averaged _ _ k (rankPercentile_nonneg hx)
        (rankPercentile_nonneg hy) hk

/-- C1 witness: the amended equation instantiated on concrete data. -/
theorem assignCluster_eq_specAveraged_witness :
    ((⟨"c", 3, 3⟩ : ScatterPoint) ∈ clusterCexData ∧ (1 : ℤ) ≤ 4 ∧
      assignCluster clusterCexData 4 ⟨"c", 3, 3⟩ =
        specClusterAveraged clusterCexData 4 ⟨"c", 3, 3⟩) ∧
    ((⟨"b", 2, 2, 20, 71⟩ : PCPPoint) ∈ pcpWitnessData ∧
      pcpAssignCluster pcpWitnessData 4 ⟨"b", 2, 2, 20, 71⟩ =
        specPcpClusterAveraged pcpWitnessData 4 ⟨"b", 2, 2, 20, 71⟩) :=
  ⟨⟨by simp [clusterCexData], by norm_num,
    assignCluster_eq_specAveraged.1 clusterCexData 4 _
      (by simp [clusterCexData]) (by norm_num)⟩,
   ⟨by simp [pcpWitnessData],
    assignCluster_eq_specAveraged.2 pcpWitnessData 4 _
      (by simp [pcpWitnessData]) (by norm_num)⟩⟩

/-- C2: for every k in [1, 10] and every record of the non-empty
filtered dataset, both cluster assigners return an id in [0, k-1]. -/
theorem assignCluster_id_in_range :
    (∀ (data : List ScatterPoint) (k : ℤ) (point : ScatterPoint),
      point ∈ data → data ≠ [] → 1 ≤ k → k ≤ 10 →
        0 ≤ assignCluster data k point ∧
          assignCluster data k point ≤ k - 1) ∧
    (∀ (data : List PCPPoint) (k : ℤ) (point : PCPPoint),
      point ∈ data → data ≠ [] → 1 ≤ k → k ≤ 10 →
        0 ≤ pcpAssignCluster data k point ∧
          pcpAssignCluster data k point ≤ k - 1) := by
  constructor
  · intro data k point hmem _ hk _
    have hx : point.x ∈ sortAsc (data.map ScatterPoint.x) :=
      mem_sortAsc.mpr (List.mem_map_of_mem _ hmem)
    have hy : point.y ∈ sortAsc (data.map ScatterPoint.y) :=
      mem_sortAsc.mpr (List.mem_map_of_mem _ hmem)
    refine ⟨?_, min_le_right _ _⟩
    simpa only [assignCluster] using
      clusterIndex_lower_bound _ _ k (rankPercentile_nonneg hx)
        (rankPercentile_nonneg hy) hk
  · intro data k point hmem _ hk _
    have hx : point.co2Emissions ∈ sortAsc (data.map PCPPoint.co2Emissions) :=
      mem_sortAsc.mpr (List.mem_map_of_mem _ hmem)
    have hy : point.gdp ∈ sortAsc (data.map PCPPoint.gdp) :=
      mem_sortAsc.mpr (List.mem_map_of_mem _ hmem)
    refine ⟨?_, min_le_right _ _⟩
    simpa only [pcpAssignCluster] using
      clusterIndex_lower_bound _ _ k (rankPercentile_nonneg hx)
        (rankPercentile_nonneg hy) hk

/-- C2 witness: the range property instantiated on concrete data. -/
theorem assignCluster_id_in_range_witness :
    ((⟨"a", 1, 1⟩ : ScatterPoint) ∈ clusterCexData ∧
      clusterCexData ≠ [] ∧ (1 : ℤ) ≤ 3 ∧ (3 : ℤ) ≤ 10 ∧
      0 ≤ assignCluster clusterCexData 3 ⟨"a", 1, 1⟩ ∧
        assignCluster clusterCexData 3 ⟨"a", 1, 1⟩ ≤ 3 - 1) ∧
    ((⟨"d", 4, 4, 40, 73⟩ : PCPPoint) ∈ pcpWitnessData ∧
      0 ≤ pcpAssignCluster pcpWitnessData 10 ⟨"d", 4, 4, 40, 73⟩ ∧
        pcpAssignCluster pcpWitnessData 10 ⟨"d", 4, 4, 40, 73⟩ ≤ 10 - 1) :=
  ⟨⟨by simp [clusterCexData], by simp [clusterCexData], by norm_num, by norm_num,
    assignCluster_id_in_range.1 clusterCexData 3 _
      (by simp [clusterCexData]) (by simp [clusterCexData])
      (by norm_num) (by norm_num)⟩,
   ⟨by simp [pcpWitnessData],
    assignCluster_id_in_range.2 pcpWitnessData 10 _
      (by simp [pcpWitnessData]) (by simp [pcpWitnessData])
      (by norm_num) (by norm_num)⟩⟩

/-- C3 counterexample: when the primary source fails with one error
and the fallback fails with a different error, `loadAll()` rejects
with the fallback error, not with the original primary error. -/
theorem loadData_ne_primary_error_cex :
    loadData (α := Unit) (Except.error "primary API failure")
        (Except.error "fallback file failure") =
      Except.error "fallback file failure" ∧
    loadData (α := Unit) (Except.error "primary API failure")
        (Except.error "fallback file failure") ≠
      Except.error "primary API failure" := by
  constructor
  · rfl
  · intro h
    have h2 : (Except.error (α := Unit) "fallback file failure") =
        Except.error (α := Unit) "primary API failure" := h
    simp at h2

/-- C3 (amended): when both the primary and the fallback source fail,
`loadAll()` rejects with the error raised by the fallback source (the
primary error is logged and discarded). -/
theorem loadData_propagates_fallback_error {ε α : Type}
    (e1 e2 : ε) :
    loadData (α := α) (Except.error e1) (Except.error e2) = Except.error e2 :=
  rfl

/-- C4: a call on a loaded service returns immediately with no fetch
and no state change; a call while a load is in flight returns the same
memoized promise with no fetch and no state change; consequently n + 1
calls starting from an idle unloaded state perform exactly one fetch
pair. -/
theorem loadAllData_single_fetch_pair :
    (∀ s : DataServiceState, s.loaded = true → loadAllData s = (s, none)) ∧
    (∀ (s : DataServiceState) (p : ℕ), s.loaded = false → s.loading = true →
      s.loadPromiseId = some p → loadAllData s = (s, some p)) ∧
    (∀ (s : DataServiceState) (n : ℕ), s.loaded = false → s.loading = false →
      (loadAllDataState^[n] (loadAllDataState s)).fetchPairs =
        s.fetchPairs + 1) := by
  refine ⟨?_, ?_, ?_⟩
  · intro s h
    simp [loadAllData, h]
  · intro s p h1 h2 h3
    simp [loadAllData, h1, h2, h3]
  · intro s n h1 h2
    have hstep : loadAllDataState s =
        ⟨s.loaded, true, some s.nextPromiseId, s.nextPromiseId + 1,
          s.fetchPairs + 1⟩ := by
      simp [loadAllDataState, loadAllData, h1, h2]
    have hfix : loadAllDataState (loadAllDataState s) = loadAllDataState s := by
      rw [hstep]
      simp [loadAllDataState, loadAllData, h1]
    rw [Function.iterate_fixed hfix n, hstep]

/-- C4 witness: the memoization properties instantiated on concrete
service states, with three extra calls made while the load started by
the first call is still pending. -/
theorem loadAllData_single_fetch_pair_witness :
    ((⟨true, false, none, 2, 1⟩ : DataServiceState).loaded = true ∧
      loadAllData ⟨true, false, none, 2, 1⟩ = (⟨true, false, none, 2, 1⟩, none)) ∧
    ((⟨false, true, some 0, 1, 1⟩ : DataServiceState).loaded = false ∧
      (⟨false, true, some 0, 1, 1⟩ : DataServiceState).loading = true ∧
      (⟨false, true, some 0, 1, 1⟩ : DataServiceState).loadPromiseId = some 0 ∧
      loadAllData ⟨false, true, some 0, 1, 1⟩ =
        (⟨false, true, some 0, 1, 1⟩, some 0)) ∧
    ((⟨false, false, none, 0, 0⟩ : DataServiceState).loaded = false ∧
      (⟨false, false, none, 0, 0⟩ : DataServiceState).loading = false ∧
      (loadAllDataState^[3]
          (loadAllDataState ⟨false, false, none, 0, 0⟩)).fetchPairs = 0 + 1) :=
  ⟨⟨rfl, loadAllData_single_fetch_pair.1 ⟨true, false, none, 2, 1⟩ rfl⟩,
   ⟨rfl, rfl, rfl,
    loadAllData_single_fetch_pair.2.1 ⟨false, true, some 0, 1, 1⟩ 0 rfl rfl rfl⟩,
   ⟨rfl, rfl,
    loadAllData_single_fetch_pair.2.2 ⟨false, false, none, 0, 0⟩ 3 rfl rfl⟩⟩

theorem ratMin_exists (l : List ℚ) (h : l ≠ []) :
    ∃ m, l.min? = some m ∧ m ∈ l ∧ ∀ v ∈ l, m ≤ v := by
  cases hm : l.min? with
  | none => exact absurd (List.min?_eq_none_iff.mp hm) h
  | some m =>
    have hspec := (List.min?_eq_some_iff (le_refl) (min_choice)
      (fun _ _ _ => le_min_iff)).mp hm
    exact ⟨m, rfl, hspec.1, hspec.2⟩

theorem ratMax_exists (l : List ℚ) (h : l ≠ []) :
    ∃ m, l.max? = some m ∧ m ∈ l ∧ ∀ v ∈ l, v ≤ m := by
  cases hm : l.max? with
  | none => exact absurd (List.max?_eq_none_iff.mp hm) h
  | some m =>
    have hspec := (List.max?_eq_some_iff (le_refl) (max_choice)
      (fun _ _ _ => max_le_iff)).mp hm
    exact ⟨m, rfl, hspec.1, hspec.2⟩

theorem getD_mem_of_lt (s : List ℚ) {i : ℕ} (h : i < s.length) :
    s.getD i 0 ∈ s := by
  rw [List.getD_eq_get _ _ h]
  exact List.get_mem _ _ _

theorem sorted_getD_mono (s : List ℚ) (hs : List.Sorted (· ≤ ·) s) {i j : ℕ}
    (hij : i ≤ j) (hj : j < s.length) : s.getD i 0 ≤ s.getD j 0 := by
  have hi : i < s.length := lt_of_le_of_lt hij hj
  rw [List.getD_eq_get _ _ hi, List.getD_eq_get _ _ hj]
  exact hs.rel_get_of_le (Fin.mk_le_mk.mpr hij)

theorem toNat_floor_le (h : ℚ) (h0 : 0 ≤ h) : ((⌊h⌋.toNat : ℚ)) ≤ h := by
  have hcast : ((⌊h⌋.toNat : ℚ)) = ((⌊h⌋ : ℤ) : ℚ) := by
    exact_mod_cast Int.toNat_of_nonneg (Int.floor_nonneg.mpr h0)
  rw [hcast]
  exact Int.floor_le h

theorem lt_toNat_floor_add_one (h : ℚ) (h0 : 0 ≤ h) :
    h < (⌊h⌋.toNat : ℚ) + 1 := by
  have hcast : ((⌊h⌋.toNat : ℚ)) = ((⌊h⌋ : ℤ) : ℚ) := by
    exact_mod_cast Int.toNat_of_nonneg (Int.floor_nonneg.mpr h0)
  rw [hcast]
  exact Int.lt_floor_add_one h

theorem toNat_floor_succ_lt {h : ℚ} {n : ℕ} (h0 : 0 ≤ h)
    (hlt : h < (n : ℚ) - 1) : ⌊h⌋.toNat + 1 < n := by
  have h1 : ⌊h⌋ < (n : ℤ) - 1 := by
    rw [show ((n : ℤ) - 1) = ((n : ℤ) - 1 : ℤ) from rfl]
    apply Int.floor_lt.mpr
    push_cast
    linarith
  have h2 : 0 ≤ ⌊h⌋ := Int.floor_nonneg.mpr h0
  omega

theorem quantileInterp_between (s : List ℚ) (hs : List.Sorted (· ≤ ·) s)
    {h : ℚ} (h0 : 0 ≤ h) (hlt : h < (s.length : ℚ) - 1) :
    s.getD ⌊h⌋.toNat 0 ≤ quantileInterp s h ∧
      quantileInterp s h ≤ s.getD (⌊h⌋.toNat + 1) 0 := by
  have hin : ⌊h⌋.toNat + 1 < s.length := toNat_floor_succ_lt h0 hlt
  have hf0 : ((⌊h⌋.toNat : ℚ)) ≤ h := toNat_floor_le h h0
  have hf1 : h < ((⌊h⌋.toNat : ℚ)) + 1 := lt_toNat_floor_add_one h h0
  have hv : s.getD ⌊h⌋.toNat 0 ≤ s.getD (⌊h⌋.toNat + 1) 0 :=
    sorted_getD_mono s hs (Nat.le_succ _) hin
  constructor
  · simp only [quantileInterp]
    nlinarith [mul_nonneg (sub_nonneg.mpr hv) (sub_nonneg.mpr hf0)]
  · simp only [quantileInterp]
    nlinarith [mul_nonneg (sub_nonneg.mpr hv)
      (by linarith : (0 : ℚ) ≤ ((⌊h⌋.toNat : ℚ)) + 1 - h)]

theorem quantileInterp_pos (s : List ℚ) (hs : List.Sorted (· ≤ ·) s)
    (hpos : ∀ v ∈ s, 0 < v) {h : ℚ} (h0 : 0 ≤ h)
    (hlt : h < (s.length : ℚ) - 1) : 0 < quantileInterp s h := by
  have hin : ⌊h⌋.toNat + 1 < s.length := toNat_floor_succ_lt h0 hlt
  have hlow := (quantileInterp_between s hs h0 hlt).1
  have hv0 : 0 < s.getD ⌊h⌋.toNat 0 :=
    hpos _ (getD_mem_of_lt s (by omega))
  linarith

theorem quantileInterp_mono (s : List ℚ) (hs : List.Sorted (· ≤ ·) s)
    {h1 h2 : ℚ} (h0 : 0 ≤ h1) (h12 : h1 ≤ h2)
    (hlt : h2 < (s.length : ℚ) - 1) :
    quantileInterp s h1 ≤ quantileInterp s h2 := by
  have h20 : 0 ≤ h2 := le_trans h0 h12
  have h1lt : h1 < (s.length : ℚ) - 1 := lt_of_le_of_lt h12 hlt
  have hin2 : ⌊h2⌋.toNat + 1 < s.length := toNat_floor_succ_lt h20 hlt
  have hi12 : ⌊h1⌋.toNat ≤ ⌊h2⌋.toNat := by
    have := Int.floor_mono h12
    omega
  rcases Nat.lt_or_ge ⌊h1⌋.toNat ⌊h2⌋.toNat with hij | hij
  · calc quantileInterp s h1
        ≤ s.getD (⌊h1⌋.toNat + 1) 0 := (quantileInterp_between s hs h0 h1lt).2
      _ ≤ s.getD ⌊h2⌋.toNat 0 := sorted_getD_mono s hs (by omega) (by omega)
      _ ≤ quantileInterp s h2 := (quantileInterp_between s hs h20 hlt).1
  · have heq : ⌊h1⌋.toNat = ⌊h2⌋.toNat := le_antisymm hi12 hij
    have hv : s.getD ⌊h2⌋.toNat 0 ≤ s.getD (⌊h2⌋.toNat + 1) 0 :=
      sorted_getD_mono s hs (Nat.le_succ _) hin2
    simp only [quantileInterp, heq]
    nlinarith [mul_le_mul_of_nonneg_left (sub_le_sub_right h12 ((⌊h2⌋.toNat : ℚ)))
      (sub_nonneg.mpr hv)]

theorem d3Quantile_five_ninetyfive (values : List ℚ)
    (hs : List.Sorted (· ≤ ·) values) (hne : values ≠ [])
    (hpos : ∀ v ∈ values, 0 < v) :
    ∃ q05 q95, d3Quantile values (1 / 20) = some q05 ∧
      d3Quantile values (19 / 20) = some q95 ∧
      0 < q05 ∧ 0 < q95 ∧ q05 ≤ q95 := by
  have hlen0 : values.length ≠ 0 := by
    simpa [List.length_eq_zero] using hne
  by_cases hlen2 : values.length < 2
  · obtain ⟨m, hm, hmem, _⟩ := ratMin_exists values hne
    refine ⟨m, m, ?_, ?_, hpos m hmem, hpos m hmem, le_refl m⟩
    · simp only [d3Quantile, if_neg hlen0]
      rw [if_pos (Or.inr hlen2)]
      exact hm
    · simp only [d3Quantile, if_neg hlen0]
      rw [if_pos (Or.inr hlen2)]
      exact hm
  · push_neg at hlen2
    have hnq : (2 : ℚ) ≤ (values.length : ℚ) := by exact_mod_cast hlen2
    have hcond05 : ¬ ((1 : ℚ) / 20 ≤ 0 ∨ values.length < 2) := by
      push_neg
      exact ⟨by norm_num, hlen2⟩
    have hcond95 : ¬ ((19 : ℚ) / 20 ≤ 0 ∨ values.length < 2) := by
      push_neg
      exact ⟨by norm_num, hlen2⟩
    have h05nonneg : (0 : ℚ) ≤ ((values.length : ℚ) - 1) * (1 / 20) := by
      nlinarith
    have h95nonneg : (0 : ℚ) ≤ ((values.length : ℚ) - 1) * (19 / 20) := by
      nlinarith
    have h95lt : ((values.length : ℚ) - 1) * (19 / 20) <
        (values.length : ℚ) - 1 := by nlinarith
    have h05le95 : ((values.length : ℚ) - 1) * (1 / 20) ≤
        ((values.length : ℚ) - 1) * (19 / 20) := by nlinarith
    refine ⟨quantileInterp values (((values.length : ℚ) - 1) * (1 / 20)),
      quantileInterp values (((values.length : ℚ) - 1) * (19 / 20)),
      ?_, ?_, ?_, ?_, ?_⟩
    · simp only [d3Quantile, if_neg hlen0, if_neg hcond05]
      rw [if_neg (by norm_num)]
    · simp only [d3Quantile, if_neg hlen0, if_neg hcond95]
      rw [if_neg (by norm_num)]
    · exact quantileInterp_pos values hs hpos h05nonneg
        (lt_of_le_of_lt h05le95 h95lt)
    · exact quantileInterp_pos values hs hpos h95nonneg h95lt
    · exact quantileInterp_mono values hs h05nonneg h05le95 h95lt

theorem sortAsc_sorted (l : List ℚ) : List.Sorted (· ≤ ·) (sortAsc l) :=
  List.sorted_insertionSort _ l

theorem sortAsc_ne_nil {l : List ℚ} (h : l ≠ []) : sortAsc l ≠ [] := by
  intro hcon
  apply h
  have := length_sortAsc l
  rw [hcon] at this
  exact List.length_eq_zero.mp this.symm

/-- Characterization of the non-lifeExpectancy branch of
`mapColorScale` on nonempty positive data: the domain is exactly the
pair of d3 quantiles (the zero guard never fires) and the scale is
clamped. -/
theorem mapColorScale_other_branch (feature : ChartFeature)
    (hf : feature ≠ ChartFeature.lifeExpectancy) (values : List ℚ)
    (hne : values ≠ []) (hpos : ∀ v ∈ values, 0 < v) :
    ∃ q05 q95, d3Quantile (sortAsc values) (1 / 20) = some q05 ∧
      d3Quantile (sortAsc values) (19 / 20) = some q95 ∧
      mapColorScale feature values = ⟨q05, q95, true⟩ ∧
      0 < q05 ∧ q05 ≤ q95 := by
  have hsne : sortAsc values ≠ [] := sortAsc_ne_nil hne
  have hspos : ∀ v ∈ sortAsc values, 0 < v := fun v hv =>
    hpos v (mem_sortAsc.mp hv)
  obtain ⟨q05, q95, h05, h95, hq05, hq95, hle⟩ :=
    d3Quantile_five_ninetyfive (sortAsc values) (sortAsc_sorted values)
      hsne hspos
  refine ⟨q05, q95, h05, h95, ?_, hq05, hle⟩
  simp only [mapColorScale, if_neg hf, h05, h95, jsOrQ]
  rw [if_neg (ne_of_gt hq05), if_neg (ne_of_gt hq95)]

theorem scaleT_clamp_below (s : SeqScale) (hc : s.clamped = true)
    (hle : s.d0 ≤ s.d1) {v : ℚ} (hv : v ≤ s.d0) :
    scaleT s v = scaleT s s.d0 := by
  by_cases hd : s.d1 - s.d0 = 0
  · simp [scaleT, hd, hc]
  · have hpos : 0 < s.d1 - s.d0 :=
      lt_of_le_of_ne (by linarith) (Ne.symm hd)
    have ht : (v - s.d0) / (s.d1 - s.d0) ≤ 0 :=
      div_nonpos_of_nonpos_of_nonneg (by linarith) (le_of_lt hpos)
    simp only [scaleT, if_neg hd, hc, if_pos, sub_self, zero_div]
    rw [min_eq_right (le_trans ht zero_le_one),
      min_eq_right (zero_le_one), max_eq_left ht]
    simp

theorem scaleT_clamp_above (s : SeqScale) (hc : s.clamped = true)
    (hle : s.d0 ≤ s.d1) {v : ℚ} (hv : s.d1 ≤ v) :
    scaleT s v = scaleT s s.d1 := by
  by_cases hd : s.d1 - s.d0 = 0
  · simp [scaleT, hd, hc]
  · have hpos : 0 < s.d1 - s.d0 :=
      lt_of_le_of_ne (by linarith) (Ne.symm hd)
    have ht : (1 : ℚ) ≤ (v - s.d0) / (s.d1 - s.d0) := by
      rw [le_div_iff hpos]
      linarith
    simp only [scaleT, if_neg hd, hc, if_pos, div_self hd]
    rw [min_eq_left ht, min_eq_left (le_refl 1)]

/-- C5: on any non-empty list of valid (positive) values, the map
color scale for life expectancy has domain exactly [min, max] of the
values and no clamping; for every other feature it has domain
[5th percentile, 95th percentile] (d3 quantiles of the sorted values)
with clamping enabled, so every value at or below the 5th percentile
gets the interpolator input of the 5th percentile and every value at
or above the 95th percentile gets that of the 95th percentile. -/
theorem mapColorScale_domains (values : List ℚ) (hne : values ≠ [])
    (hpos : ∀ v ∈ values, 0 < v) :
    ((mapColorScale ChartFeature.lifeExpectancy values).clamped = false ∧
      (mapColorScale ChartFeature.lifeExpectancy values).d0 ∈ values ∧
      (∀ v ∈ values, (mapColorScale ChartFeature.lifeExpectancy values).d0 ≤ v) ∧
      (mapColorScale ChartFeature.lifeExpectancy values).d1 ∈ values ∧
      (∀ v ∈ values, v ≤ (mapColorScale ChartFeature.lifeExpectancy values).d1)) ∧
    (∀ feature : ChartFeature, feature ≠ ChartFeature.lifeExpectancy →
      (mapColorScale feature values).clamped = true ∧
      d3Quantile (sortAsc values) (1 / 20) =
        some (mapColorScale feature values).d0 ∧
      d3Quantile (sortAsc values) (19 / 20) =
        some (mapColorScale feature values).d1 ∧
      (∀ v ≤ (mapColorScale feature values).d0,
        scaleT (mapColorScale feature values) v =
          scaleT (mapColorScale feature values)
            (mapColorScale feature values).d0) ∧
      (∀ v, (mapColorScale feature values).d1 ≤ v →
        scaleT (mapColorScale feature values) v =
          scaleT (mapColorScale feature values)
            (mapColorScale feature values).d1)) := by
  constructor
  · obtain ⟨m, hm, hmem, hmin⟩ := ratMin_exists values hne
    obtain ⟨M, hM, hMem, hmax⟩ := ratMax_exists values hne
    simp only [mapColorScale, if_pos rfl, d3Extent, hm, hM, Option.getD_some]
    exact ⟨rfl, hmem, hmin, hMem, hmax⟩
  · intro feature hf
    obtain ⟨q05, q95, h05, h95, hscale, hq05, hle⟩ :=
      mapColorScale_other_branch feature hf values hne hpos
    rw [hscale]
    refine ⟨rfl, by rw [h05], by rw [h95], ?_, ?_⟩
    · intro v hv
      exact scaleT_clamp_below ⟨q05, q95, true⟩ rfl hle hv
    · intro v hv
      exact scaleT_clamp_above ⟨q05, q95, true⟩ rfl hle hv

/-- C5 witness: the color scale properties instantiated on the value
list [1, 2, 3, 4] and the GDP feature. -/
theorem mapColorScale_domains_witness :
    (([1, 2, 3, 4] : List ℚ) ≠ []) ∧
    (∀ v ∈ ([1, 2, 3, 4] : List ℚ), 0 < v) ∧
    (mapColorScale ChartFeature.lifeExpectancy [1, 2, 3, 4]).d0 ∈
      ([1, 2, 3, 4] : List ℚ) ∧
    (mapColorScale ChartFeature.gdp [1, 2, 3, 4]).clamped = true ∧
    (∀ v ≤ (mapColorScale ChartFeature.gdp [1, 2, 3, 4]).d0,
      scaleT (mapColorScale ChartFeature.gdp [1, 2, 3, 4]) v =
        scaleT (mapColorScale ChartFeature.gdp [1, 2, 3, 4])
          (mapColorScale ChartFeature.gdp [1, 2, 3, 4]).d0) := by
  have h1 : ([1, 2, 3, 4] : List ℚ) ≠ [] := by simp
  have h2 : ∀ v ∈ ([1, 2, 3, 4] : List ℚ), 0 < v := by
    intro v hv
    simp at hv
    rcases hv with rfl | rfl | rfl | rfl <;> norm_num
  have hgdp : ChartFeature.gdp ≠ ChartFeature.lifeExpectancy := by
    intro hcon
    cases hcon
  exact ⟨h1, h2, (mapColorScale_domains [1, 2, 3, 4] h1 h2).1.2.1,
    ((mapColorScale_domains [1, 2, 3, 4] h1 h2).2 ChartFeature.gdp hgdp).1,
    ((mapColorScale_domains [1, 2, 3, 4] h1 h2).2 ChartFeature.gdp
      hgdp).2.2.2.1⟩

theorem zip_fst_sum (xs ys : List ℝ) (h : xs.length = ys.length) (m : ℝ) :
    ((xs.zip ys).map (fun p => (p.1 - m) * (p.1 - m))).sum =
      (xs.map (fun x => (x - m) * (x - m))).sum := by
  have heq : (fun p : ℝ × ℝ => (p.1 - m) * (p.1 - m)) =
      (fun x : ℝ => (x - m) * (x - m)) ∘ Prod.fst := rfl
  rw [heq, ← List.map_map, List.map_fst_zip xs ys (le_of_eq h)]

theorem zip_snd_sum (xs ys : List ℝ) (h : xs.length = ys.length) (m : ℝ) :
    ((xs.zip ys).map (fun p => (p.2 - m) * (p.2 - m))).sum =
      (ys.map (fun x => (x - m) * (x - m))).sum := by
  have heq : (fun p : ℝ × ℝ => (p.2 - m) * (p.2 - m)) =
      (fun x : ℝ => (x - m) * (x - m)) ∘ Prod.snd := rfl
  rw [heq, ← List.map_map, List.map_snd_zip xs ys (ge_of_eq h)]

theorem sumSq_eq_variance_mul (l : List ℝ) :
    (l.map (fun x => (x - jsMean l) * (x - jsMean l))).sum =
      specVariance l * (l.length : ℝ) := by
  by_cases h : l.length = 0
  · have hl : l = [] := List.length_eq_zero.mp h
    subst hl
    simp [specVariance]
  · have hn : (l.length : ℝ) ≠ 0 := by exact_mod_cast h
    field_simp [specVariance]

theorem specVariance_empty : specVariance ([] : List ℝ) = 0 := by
  simp [specVariance]

theorem length_ne_zero_of_variance {l : List ℝ} (h : specVariance l ≠ 0) :
    l.length ≠ 0 := by
  intro hcon
  rw [List.length_eq_zero.mp hcon] at h
  exact h specVariance_empty

theorem mapSq_sum_nonneg (l : List (ℝ × ℝ)) (f : ℝ × ℝ → ℝ) :
    0 ≤ (l.map (fun p => f p * f p)).sum := by
  apply List.sum_nonneg
  intro x hx
  obtain ⟨p, _, rfl⟩ := List.mem_map.mp hx
  exact mul_self_nonneg _

theorem slope_eq_cov_div_var (xs ys : List ℝ) (hlen : xs.length = ys.length)
    (hvar : specVariance xs ≠ 0) :
    (leastSquares xs ys).1 = specCovariance xs ys / specVariance xs := by
  have hn0 : xs.length ≠ 0 := length_ne_zero_of_variance hvar
  have hnR : ((xs.length : ℝ)) ≠ 0 := by exact_mod_cast hn0
  have hziplen : (xs.zip ys).length = xs.length := by
    rw [List.length_zip, hlen, min_self]
  have hden : ((xs.zip ys).map
      (fun p => (p.1 - jsMean xs) * (p.1 - jsMean xs))).sum =
      specVariance xs * (xs.length : ℝ) := by
    rw [zip_fst_sum xs ys hlen (jsMean xs)]
    exact sumSq_eq_variance_mul xs
  have hdenne : ((xs.zip ys).map
      (fun p => (p.1 - jsMean xs) * (p.1 - jsMean xs))).sum ≠ 0 := by
    rw [hden]
    exact mul_ne_zero hvar hnR
  simp only [leastSquares, if_neg hdenne]
  rw [specCovariance, hziplen, hden]
  field_simp
  exact Or.inl (mul_comm _ _)

theorem intercept_eq (xs ys : List ℝ) :
    (leastSquares xs ys).2 = jsMean ys - (leastSquares xs ys).1 * jsMean xs := rfl

theorem correlation_zero_of_degenerate (xs ys : List ℝ)
    (hlen : xs.length = ys.length)
    (hvar : specVariance xs = 0 ∨ specVariance ys = 0) :
    calculateCorrelation xs ys = 0 := by
  have hx : ((xs.zip ys).map
      (fun p => (p.1 - jsMean xs) * (p.1 - jsMean xs))).sum =
      specVariance xs * (xs.length : ℝ) := by
    rw [zip_fst_sum xs ys hlen (jsMean xs)]
    exact sumSq_eq_variance_mul xs
  have hy : ((xs.zip ys).map
      (fun p => (p.2 - jsMean ys) * (p.2 - jsMean ys))).sum =
      specVariance ys * (ys.length : ℝ) := by
    rw [zip_snd_sum xs ys hlen (jsMean ys)]
    exact sumSq_eq_variance_mul ys
  have hprod : ((xs.zip ys).map
        (fun p => (p.1 - jsMean xs) * (p.1 - jsMean xs))).sum *
      ((xs.zip ys).map
        (fun p => (p.2 - jsMean ys) * (p.2 - jsMean ys))).sum = 0 := by
    rcases hvar with h | h
    · rw [hx, h]
      ring
    · rw [hy, h]
      ring
  simp only [calculateCorrelation, hprod, Real.sqrt_zero, if_pos]

theorem correlation_eq_pearson (xs ys : List ℝ)
    (hlen : xs.length = ys.length)
    (hvx : specVariance xs ≠ 0) (hvy : specVariance ys ≠ 0) :
    calculateCorrelation xs ys = specPearson xs ys := by
  have hn0 : xs.length ≠ 0 := length_ne_zero_of_variance hvx
  have hnR : ((xs.length : ℝ)) ≠ 0 := by exact_mod_cast hn0
  have hnpos : (0 : ℝ) < (xs.length : ℝ) :=
    Nat.cast_pos.mpr (Nat.pos_of_ne_zero hn0)
  have hziplen : (xs.zip ys).length = xs.length := by
    rw [List.length_zip, hlen, min_self]
  have hx : ((xs.zip ys).map
      (fun p => (p.1 - jsMean xs) * (p.1 - jsMean xs))).sum =
      specVariance xs * (xs.length : ℝ) := by
    rw [zip_fst_sum xs ys hlen (jsMean xs)]
    exact sumSq_eq_variance_mul xs
  have hy : ((xs.zip ys).map
      (fun p => (p.2 - jsMean ys) * (p.2 - jsMean ys))).sum =
      specVariance ys * (ys.length : ℝ) := by
    rw [zip_snd_sum xs ys hlen (jsMean ys)]
    exact sumSq_eq_variance_mul ys
  have hxnn : 0 ≤ ((xs.zip ys).map
      (fun p => (p.1 - jsMean xs) * (p.1 - jsMean xs))).sum :=
    mapSq_sum_nonneg (xs.zip ys) (fun p => p.1 - jsMean xs)
  have hynn : 0 ≤ ((xs.zip ys).map
      (fun p => (p.2 - jsMean ys) * (p.2 - jsMean ys))).sum :=
    mapSq_sum_nonneg (xs.zip ys) (fun p => p.2 - jsMean ys)
  have hxne : ((xs.zip ys).map
      (fun p => (p.1 - jsMean xs) * (p.1 - jsMean xs))).sum ≠ 0 := by
    rw [hx]
    exact mul_ne_zero hvx hnR
  have hnR2 : ((ys.length : ℝ)) ≠ 0 := by
    rw [← hlen] at *
    exact hnR
  have hyne : ((xs.zip ys).map
      (fun p => (p.2 - jsMean ys) * (p.2 - jsMean ys))).sum ≠ 0 := by
    rw [hy]
    exact mul_ne_zero hvy hnR2
  have hxpos : 0 < ((xs.zip ys).map
      (fun p => (p.1 - jsMean xs) * (p.1 - jsMean xs))).sum :=
    lt_of_le_of_ne hxnn (Ne.symm hxne)
  have hypos : 0 < ((xs.zip ys).map
      (fun p => (p.2 - jsMean ys) * (p.2 - jsMean ys))).sum :=
    lt_of_le_of_ne hynn (Ne.symm hyne)
  have hsqrtpos : 0 < Real.sqrt
      (((xs.zip ys).map
        (fun p => (p.1 - jsMean xs) * (p.1 - jsMean xs))).sum *
      ((xs.zip ys).map
        (fun p => (p.2 - jsMean ys) * (p.2 - jsMean ys))).sum) :=
    Real.sqrt_pos.mpr (mul_pos hxpos hypos)
  have hvarx : specVariance xs = ((xs.zip ys).map
      (fun p => (p.1 - jsMean xs) * (p.1 - jsMean xs))).sum /
      (xs.length : ℝ) := by
    rw [hx]
    field_simp
  have hvary : specVariance ys = ((xs.zip ys).map
      (fun p => (p.2 - jsMean ys) * (p.2 - jsMean ys))).sum /
      (xs.length : ℝ) := by
    rw [hy, ← hlen]
    field_simp
  simp only [calculateCorrelation, if_neg (ne_of_gt hsqrtpos)]
  rw [specPearson, specCovariance, hziplen, hvarx, hvary,
    Real.sqrt_div hxnn, Real.sqrt_div hynn,
    Real.sqrt_mul hxnn]
  have hsn : Real.sqrt ((xs.length : ℝ)) * Real.sqrt ((xs.length : ℝ)) =
      (xs.length : ℝ) := Real.mul_self_sqrt (le_of_lt hnpos)
  have hsnne : Real.sqrt ((xs.length : ℝ)) ≠ 0 :=
    ne_of_gt (Real.sqrt_pos.mpr hnpos)
  have hsx : Real.sqrt (((xs.zip ys).map
      (fun p => (p.1 - jsMean xs) * (p.1 - jsMean xs))).sum) ≠ 0 :=
    ne_of_gt (Real.sqrt_pos.mpr hxpos)
  have hsy : Real.sqrt (((xs.zip ys).map
      (fun p => (p.2 - jsMean ys) * (p.2 - jsMean ys))).sum) ≠ 0 :=
    ne_of_gt (Real.sqrt_pos.mpr hypos)
  field_simp

theorem sqrt16 : Real.sqrt 16 = 4 := by
  rw [show (16 : ℝ) = 4 ^ 2 by norm_num]
  exact Real.sqrt_sq (by norm_num)

theorem leastSquares_example :
    leastSquares [1, 2, 3] [2, 4, 6] = (2, 0) := by
  norm_num [leastSquares, jsMean, List.zip, List.zipWith, Prod.ext_iff]

theorem correlation_example :
    calculateCorrelation [1, 2, 3] [2, 4, 6] = 1 := by
  norm_num [calculateCorrelation, jsMean, List.zip, List.zipWith, sqrt16]

/-- C6: the scatter regression is ordinary least squares (slope equals
covariance over variance whenever the x variance is non-zero; the
intercept is yMean minus slope times xMean), the displayed coefficient
is the Pearson correlation over the same pairs and is exactly 0 when
either variance is 0, and the collinear points (1,2), (2,4), (3,6)
yield slope 2, intercept 0 and correlation 1. -/
theorem scatter_ols_pearson :
    (∀ xs ys : List ℝ, xs.length = ys.length → specVariance xs ≠ 0 →
      (leastSquares xs ys).1 = specCovariance xs ys / specVariance xs) ∧
    (∀ xs ys : List ℝ,
      (leastSquares xs ys).2 = jsMean ys - (leastSquares xs ys).1 * jsMean xs) ∧
    (∀ xs ys : List ℝ, xs.length = ys.length →
      specVariance xs = 0 ∨ specVariance ys = 0 →
        calculateCorrelation xs ys = 0) ∧
    (∀ xs ys : List ℝ, xs.length = ys.length → specVariance xs ≠ 0 →
      specVariance ys ≠ 0 → calculateCorrelation xs ys = specPearson xs ys) ∧
    leastSquares [1, 2, 3] [2, 4, 6] = (2, 0) ∧
    calculateCorrelation [1, 2, 3] [2, 4, 6] = 1 :=
  ⟨slope_eq_cov_div_var, intercept_eq, correlation_zero_of_degenerate,
    correlation_eq_pearson, leastSquares_example, correlation_example⟩

/-- C6 witness: the regression and correlation properties
instantiated on the collinear example and on a zero-variance input. -/
theorem scatter_ols_pearson_witness :
    (([1, 2, 3] : List ℝ).length = ([2, 4, 6] : List ℝ).length ∧
      specVariance ([1, 2, 3] : List ℝ) ≠ 0 ∧
      specVariance ([2, 4, 6] : List ℝ) ≠ 0 ∧
      (leastSquares [1, 2, 3] [2, 4, 6]).1 =
        specCovariance [1, 2, 3] [2, 4, 6] / specVariance [1, 2, 3] ∧
      calculateCorrelation [1, 2, 3] [2, 4, 6] =
        specPearson [1, 2, 3] [2, 4, 6]) ∧
    (([1, 1] : List ℝ).length = ([2, 3] : List ℝ).length ∧
      specVariance ([1, 1] : List ℝ) = 0 ∧
      calculateCorrelation [1, 1] [2, 3] = 0) := by
  have hv1 : specVariance ([1, 2, 3] : List ℝ) ≠ 0 := by
    norm_num [specVariance, jsMean]
  have hv2 : specVariance ([2, 4, 6] : List ℝ) ≠ 0 := by
    norm_num [specVariance, jsMean]
  have hv0 : specVariance ([1, 1] : List ℝ) = 0 := by
    norm_num [specVariance, jsMean]
  exact ⟨⟨rfl, hv1, hv2,
    scatter_ols_pearson.1 _ _ rfl hv1,
    scatter_ols_pearson.2.2.2.1 _ _ rfl hv1 hv2⟩,
    rfl, hv0, scatter_ols_pearson.2.2.1 _ _ rfl (Or.inl hv0)⟩

theorem mem_mapClickUpdate {countries : List String} {p : GeoProps}
    {c : String} (h : c ∈ mapClickUpdate countries p) :
    c ∈ countries ∨ getCountryName p = some c := by
  unfold mapClickUpdate at h
  cases hg : getCountryName p with
  | none =>
    rw [hg] at h
    exact Or.inl h
  | some n =>
    rw [hg] at h
    have h2 : c ∈ (if n = "" then countries else toggleCountry countries n) := h
    clear h
    by_cases hn : n = ""
    · rw [if_pos hn] at h2
      exact Or.inl h2
    · rw [if_neg hn] at h2
      have h : c ∈ (if n ∈ countries then
          countries.filter (fun c => c ≠ n) else countries ++ [n]) := h2
      clear h2
      by_cases hmem : n ∈ countries
      · rw [if_pos hmem] at h
        exact Or.inl (List.mem_of_mem_filter h)
      · rw [if_neg hmem] at h
        rcases List.mem_append.mp h with h1 | h1
        · exact Or.inl h1
        · right
          have hcn : c = n := List.mem_singleton.mp h1
          subst hcn
          rfl

theorem mem_stepStore {s : StoreState} {e : StoreEvent} {c : String}
    (h : c ∈ (stepStore s e).selectedCountries) :
    c ∈ s.selectedCountries ∨
      (∃ l, e = StoreEvent.setSelectedCountries l ∧ c ∈ l) ∨
      (∃ p, e = StoreEvent.mapClick p ∧ getCountryName p = some c) := by
  cases e with
  | setSelectedCountries l =>
    exact Or.inr (Or.inl ⟨l, rfl, h⟩)
  | mapClick p =>
    rcases mem_mapClickUpdate h with h1 | h1
    · exact Or.inl h1
    · exact Or.inr (Or.inr ⟨p, rfl, h1⟩)
  | clearData => simp [stepStore] at h
  | setMapFeature f => exact Or.inl h
  | setXVar v => exact Or.inl h
  | setYVar v => exact Or.inl h
  | setK k => exact Or.inl h
  | setCurrentAxis a => exact Or.inl h
  | setIsLoading b => exact Or.inl h
  | setError e => exact Or.inl h

theorem mem_foldl_stepStore :
    ∀ (events : List StoreEvent) (s : StoreState) (c : String),
      c ∈ (events.foldl stepStore s).selectedCountries →
        c ∈ s.selectedCountries ∨
          (∃ l, StoreEvent.setSelectedCountries l ∈ events ∧ c ∈ l) ∨
          (∃ p, StoreEvent.mapClick p ∈ events ∧
            getCountryName p = some c) := by
  intro events
  induction events with
  | nil =>
    intro s c h
    exact Or.inl h
  | cons e es ih =>
    intro s c h
    rw [List.foldl_cons] at h
    rcases ih (stepStore s e) c h with h1 | ⟨l, hl, hcl⟩ | ⟨p, hp, hcp⟩
    · rcases mem_stepStore h1 with h2 | ⟨l, hl, hcl⟩ | ⟨p, hp, hcp⟩
      · exact Or.inl h2
      · exact Or.inr (Or.inl ⟨l, by rw [hl]; exact List.mem_cons_self _ _, hcl⟩)
      · exact Or.inr (Or.inr ⟨p, by rw [hp]; exact List.mem_cons_self _ _, hcp⟩)
    · exact Or.inr (Or.inl ⟨l, List.mem_cons_of_mem _ hl, hcl⟩)
    · exact Or.inr (Or.inr ⟨p, List.mem_cons_of_mem _ hp, hcp⟩)

/-- C7 counterexample: the claimed invariant fails already in the
initial store state, which hardcodes a seven-country selection: with a
loaded CountryRecord set containing only France, the selection
contains the name United States which is not in the record set. -/
theorem selected_not_in_records_cex :
    "United States" ∈ (runStore []).selectedCountries ∧
      "United States" ∉ (["France"] : List String) := by
  constructor
  · simp [runStore, initialStoreState]
  · simp

/-- C7 (amended): in every reachable store state, every name in
selectedCountries comes from the hardcoded initial selection, from an
argument of some setSelectedCountries call, or from the resolved name
of a clicked geo feature; the store itself never checks membership in
the loaded CountryRecord set. -/
theorem selectedCountries_provenance :
    ∀ (events : List StoreEvent) (c : String),
      c ∈ (runStore events).selectedCountries →
        c ∈ initialStoreState.selectedCountries ∨
          (∃ l, StoreEvent.setSelectedCountries l ∈ events ∧ c ∈ l) ∨
          (∃ p, StoreEvent.mapClick p ∈ events ∧
            getCountryName p = some c) :=
  fun events c h => mem_foldl_stepStore events initialStoreState c h

/-- C7 witness: the provenance property instantiated on a click on a
geo feature named Atlantis. -/
theorem selectedCountries_provenance_witness :
    "Atlantis" ∈ (runStore
        [StoreEvent.mapClick ⟨some "Atlantis", none, none⟩]).selectedCountries ∧
      ("Atlantis" ∈ initialStoreState.selectedCountries ∨
        (∃ l, StoreEvent.setSelectedCountries l ∈
            [StoreEvent.mapClick (⟨some "Atlantis", none, none⟩ : GeoProps)] ∧
          "Atlantis" ∈ l) ∨
        (∃ p, StoreEvent.mapClick p ∈
            [StoreEvent.mapClick (⟨some "Atlantis", none, none⟩ : GeoProps)] ∧
          getCountryName p = some "Atlantis")) := by
  have hmem : "Atlantis" ∈ (runStore
      [StoreEvent.mapClick ⟨some "Atlantis", none, none⟩]).selectedCountries := by
    simp [runStore, initialStoreState, stepStore, mapClickUpdate,
      getCountryName, truthyStr, toggleCountry]
  exact ⟨hmem, selectedCountries_provenance _ _ hmem⟩

/-- C8: clicking toggles the name in the selection (present means
every occurrence is removed, absent means appended at the end), and
applying the toggle twice returns the selection to its original set
of names. -/
theorem toggleCountry_double_mem :
    ∀ (countries : List String) (name : String),
      (name ∈ countries →
        toggleCountry countries name =
          countries.filter (fun c => c ≠ name)) ∧
      (name ∉ countries →
        toggleCountry countries name = countries ++ [name]) ∧
      (∀ x, x ∈ toggleCountry (toggleCountry countries name) name ↔
        x ∈ countries) := by
  intro countries name
  refine ⟨fun h => by simp [toggleCountry, h],
    fun h => by simp [toggleCountry, h], ?_⟩
  intro x
  by_cases h : name ∈ countries
  · simp only [toggleCountry, if_pos h]
    have hn : name ∉ countries.filter (fun c => c ≠ name) := by
      simp
    rw [if_neg hn]
    simp only [List.mem_append, List.mem_filter, List.mem_singleton,
      decide_eq_true_eq]
    constructor
    · rintro (⟨hx, _⟩ | rfl)
      · exact hx
      · exact h
    · intro hx
      by_cases hxn : x = name
      · exact Or.inr hxn
      · exact Or.inl ⟨hx, hxn⟩
  · simp only [toggleCountry, if_neg h]
    have hn : name ∈ countries ++ [name] := by simp
    rw [if_pos hn]
    rw [List.filter_append]
    have h1 : countries.filter (fun c => c ≠ name) = countries := by
      apply List.filter_eq_self.mpr
      intro a ha
      simp only [decide_eq_true_eq]
      intro hcon
      exact h (hcon ▸ ha)
    have h2 : ([name] : List String).filter (fun c => c ≠ name) = [] := by
      simp
    rw [h1, h2, List.append_nil]

/-- C8 witness: the toggle properties instantiated on a concrete
selection, a present name and an absent name. -/
theorem toggleCountry_double_mem_witness :
    ("France" ∈ (["France", "Japan"] : List String) ∧
      toggleCountry ["France", "Japan"] "France" =
        (["France", "Japan"] : List String).filter (fun c => c ≠ "France")) ∧
    ("Spain" ∉ (["France", "Japan"] : List String) ∧
      toggleCountry ["France", "Japan"] "Spain" =
        ["France", "Japan"] ++ ["Spain"]) ∧
    (∀ x, x ∈ toggleCountry (toggleCountry ["France", "Japan"] "Spain")
        "Spain" ↔ x ∈ (["France", "Japan"] : List String)) :=
  ⟨⟨by decide,
    (toggleCountry_double_mem ["France", "Japan"] "France").1 (by decide)⟩,
   ⟨by decide,
    (toggleCountry_double_mem ["France", "Japan"] "Spain").2.1 (by decide)⟩,
   (toggleCountry_double_mem ["France", "Japan"] "Spain").2.2⟩

/-- C9 counterexample: with the displayed MSE sequence [5, 5],
clicking bar 1 (0-based) sets k to indexOf(5) + 1 = 1, not to
i + 1 = 2, because the handler looks up the datum by value. -/
theorem barClick_duplicate_value_cex :
    barClickNewK [5, 5] 1 = 1 ∧
      (stepStore initialStoreState
        (StoreEvent.setK (barClickNewK [5, 5] 1))).k = 1 ∧
      (1 : ℤ) ≠ 1 + 1 := by
  have h : barClickNewK [5, 5] 1 = 1 := by
    norm_num [barClickNewK, jsIndexOf, List.indexOf, List.findIdx,
      List.findIdx.go, beq_iff_eq, cond_eq_if]
  exact ⟨h, by rw [stepStore, h], by norm_num⟩

/-- C9 (amended): clicking bar i sets ViewState.k to j + 1 where j is
the index of the first bar holding the same MSE value; whenever the
displayed values are pairwise distinct this equals i + 1. -/
theorem barClick_sets_k_of_nodup :
    ∀ (data : List ℚ) (i : ℕ) (s : StoreState), i < data.length →
      data.Nodup →
        (stepStore s (StoreEvent.setK (barClickNewK data i))).k =
          (i : ℤ) + 1 := by
  intro data i s hi hnd
  have hget : data.getD i 0 = data.get ⟨i, hi⟩ := List.getD_eq_get data 0 hi
  have hmem : data.getD i 0 ∈ data := by
    rw [hget]
    exact List.get_mem _ _ _
  have hidxlt : List.indexOf (data.getD i 0) data < data.length :=
    List.indexOf_lt_length.mpr hmem
  have hidx : List.indexOf (data.getD i 0) data = i := by
    have hgeteq : data.get ⟨List.indexOf (data.getD i 0) data, hidxlt⟩ =
        data.get ⟨i, hi⟩ := by
      rw [List.indexOf_get hidxlt, hget]
    have := (hnd.get_inj_iff).mp hgeteq
    exact congrArg Fin.val this
  have hk : (stepStore s (StoreEvent.setK (barClickNewK data i))).k =
      barClickNewK data i := rfl
  rw [hk]
  simp only [barClickNewK, jsIndexOf, if_pos hmem]
  rw [hidx]

/-- C9 witness: the amended property instantiated on a
duplicate-free MSE sequence. -/
theorem barClick_sets_k_of_nodup_witness :
    (2 < ([10, 20, 30] : List ℚ).length) ∧ ([10, 20, 30] : List ℚ).Nodup ∧
      (stepStore initialStoreState
        (StoreEvent.setK (barClickNewK [10, 20, 30] 2))).k = (2 : ℤ) + 1 := by
  have h1 : 2 < ([10, 20, 30] : List ℚ).length := by norm_num
  have h2 : ([10, 20, 30] : List ℚ).Nodup := by
    norm_num [List.nodup_cons]
  exact ⟨h1, h2, barClick_sets_k_of_nodup [10, 20, 30] 2 initialStoreState h1 h2⟩

theorem jsOrNum_fin_zero_ne_nan (a : JSNum) :
    jsOrNum a (JSNum.fin 0) ≠ JSNum.nan := by
  cases a with
  | nan => simp [jsOrNum, JSNum.truthy]
  | posInf => simp [jsOrNum, JSNum.truthy]
  | negInf => simp [jsOrNum, JSNum.truthy]
  | fin q =>
    by_cases h : q = 0 <;> simp [jsOrNum, JSNum.truthy, h]

/-- C10: parseNumericValue is total; null and undefined map to 0, a
string is cleaned (commas, one dollar sign, one percent sign) and
parsed with the or-zero guard, a string whose cleaned form parses to
NaN or to 0 maps to 0, no string input can produce NaN, and the only
input producing NaN is the number NaN itself. -/
theorem parseNumericValue_never_nan :
    parseNumericValue JSValue.null = JSNum.fin 0 ∧
    parseNumericValue JSValue.undef = JSNum.fin 0 ∧
    (∀ s, parseNumericValue (JSValue.str s) =
      jsOrNum (jsParseFloat (cleanNumericString s)) (JSNum.fin 0)) ∧
    (∀ s, jsParseFloat (cleanNumericString s) = JSNum.nan →
      parseNumericValue (JSValue.str s) = JSNum.fin 0) ∧
    (∀ s, jsParseFloat (cleanNumericString s) = JSNum.fin 0 →
      parseNumericValue (JSValue.str s) = JSNum.fin 0) ∧
    (∀ s, parseNumericValue (JSValue.str s) ≠ JSNum.nan) ∧
    (∀ v, parseNumericValue v = JSNum.nan → v = JSValue.num JSNum.nan) := by
  refine ⟨rfl, rfl, fun s => rfl, ?_, ?_, ?_, ?_⟩
  · intro s h
    simp only [parseNumericValue]
    rw [h]
    rfl
  · intro s h
    simp only [parseNumericValue]
    rw [h]
    rfl
  · intro s
    exact jsOrNum_fin_zero_ne_nan _
  · intro v h
    cases v with
    | null => simp [parseNumericValue] at h
    | undef => simp [parseNumericValue] at h
    | num n =>
      simp only [parseNumericValue] at h
      rw [h]
    | str s => exact absurd h (jsOrNum_fin_zero_ne_nan _)

/-- C10 witness: the string abc parses to NaN and is mapped to 0; the
string with a dollar sign and a zero cleans to a string parsing to 0
and is mapped to 0; the number NaN is the unique NaN-producing
input. -/
theorem parseNumericValue_never_nan_witness :
    (jsParseFloat (cleanNumericString "abc") = JSNum.nan ∧
      parseNumericValue (JSValue.str "abc") = JSNum.fin 0) ∧
    (jsParseFloat (cleanNumericString "$0") = JSNum.fin 0 ∧
      parseNumericValue (JSValue.str "$0") = JSNum.fin 0) ∧
    (parseNumericValue (JSValue.num JSNum.nan) = JSNum.nan ∧
      JSValue.num JSNum.nan = JSValue.num JSNum.nan) := by
  have habc : jsParseFloat (cleanNumericString "abc") = JSNum.nan := rfl
  have h0 : jsParseFloat (cleanNumericString "$0") = JSNum.fin 0 := by
    rw [show jsParseFloat (cleanNumericString "$0") =
      JSNum.fin ((1 : ℚ) * (((0 : ℕ) : ℚ) + ((0 : ℕ) : ℚ) / (10 : ℚ) ^ (0 : ℕ)) *
        (10 : ℚ) ^ ((0 : ℤ))) from rfl]
    norm_num
  exact ⟨⟨habc, parseNumericValue_never_nan.2.2.2.1 "abc" habc⟩,
    ⟨h0, parseNumericValue_never_nan.2.2.2.2.1 "$0" h0⟩,
    rfl, parseNumericValue_never_nan.2.2.2.2.2.2 (JSValue.num JSNum.nan) rfl⟩

end TradeLens
